import Mathlib

/-!
Shallow embedding of the working-hours extractor (`parser.py`): the lexicon,
the regex tokenizer, the two-state range parser, and the schedule builder
with its queries.  Python exceptions are modelled by `Option`: a `none`
result of a fallible operation stands for an uncaught exception.
-/

set_option maxHeartbeats 2000000

namespace HoursSpec

/-- Token kinds, one per named group of the token regex. -/
inductive TokenKind
  | hour
  | weekday
  | weekday_range
  | range_mark
  | word
deriving DecidableEq, Repr

/-- Minimal element of parsed text (class `Token`); `type` is the regex group name. -/
structure Token where
  value : List Char
  type : TokenKind
deriving DecidableEq, Repr

/-- Characters of a string literal. -/
def chars (s : String) : List Char := s.data

/-- First-match association-list lookup (Python `dict.get` with default `None`). -/
def assocLookup {κ β : Type} [DecidableEq κ] : List (κ × β) → κ → Option β
  | [], _ => none
  | kv :: rest, k => if kv.1 = k then some kv.2 else assocLookup rest k

/-- Ordered weekday lexicon `WEEKDAYS`; long names come before their short prefixes. -/
def WEEKDAYS : List (List Char × Nat) :=
  [(chars "понедельник", 1), (chars "пн", 1),
   (chars "вторник", 2), (chars "вт", 2),
   (chars "среда", 3), (chars "ср", 3),
   (chars "четверг", 4), (chars "чт", 4),
   (chars "пятница", 5), (chars "пт", 5),
   (chars "суббота", 6), (chars "сб", 6),
   (chars "воскресенье", 7), (chars "воскр", 7), (chars "вс", 7)]

/-- Weekday-range lexicon `WEEKDAY_RANGES`, in source (insertion) order. -/
def WEEKDAY_RANGES : List (List Char × (Nat × Nat)) :=
  [(chars "будни", (1, 5)),
   (chars "без перерыва и выходных", (1, 7)),
   (chars "выходные", (6, 7)),
   (chars "ежедневно", (1, 7)),
   (chars "ежеднено", (1, 7)),
   (chars "режим работы", (1, 7))]

/-- Keys of `WEEKDAYS`, in alternation order of the regex. -/
def wdKeys : List (List Char) := WEEKDAYS.map Prod.fst

/-- Keys of `WEEKDAY_RANGES`, in alternation order of the regex. -/
def wrKeys : List (List Char) := WEEKDAY_RANGES.map Prod.fst

/-- Python `WEEKDAYS.get(v, None)`. -/
def wdLookup (v : List Char) : Option Nat := assocLookup WEEKDAYS v

/-- Python `WEEKDAY_RANGES.get(v, None)`. -/
def wrLookup (v : List Char) : Option (Nat × Nat) := assocLookup WEEKDAY_RANGES v

/-- Lowercasing as Python `str.lower`, restricted to ASCII letters and the
Cyrillic block used by the lexicon (the only letters the program's inputs use). -/
def rusLower (c : Char) : Char :=
  if ('A' ≤ c ∧ c ≤ 'Z') ∨ ('А' ≤ c ∧ c ≤ 'Я') then Char.ofNat (c.toNat + 32)
  else if c = 'Ё' then 'ё' else c

/-- Text preprocessing of `Parser.__init__`: lowercase, then replace the two
long-dash variants by an ASCII hyphen. -/
def preprocess (cs : List Char) : List Char :=
  (cs.map rusLower).map fun c => if c = '–' ∨ c = '—' then '-' else c

/-- Separator class `[:.-]` of the hour pattern. -/
def isSep (c : Char) : Bool := c = ':' ∨ c = '.' ∨ c = '-'

/-- Word character for the regex class `\w` (ASCII alphanumerics, underscore,
and the Cyrillic letters appearing in the program's inputs). -/
def isWordChar (c : Char) : Bool :=
  c.isAlphanum || c == '_' ||
    decide (('а' ≤ c ∧ c ≤ 'я') ∨ c = 'ё' ∨ ('А' ≤ c ∧ c ≤ 'Я') ∨ c = 'Ё')

/-- Match a literal key as a prefix, returning the remainder. -/
def matchLit : List Char → List Char → Option (List Char)
  | [], cs => some cs
  | _ :: _, [] => none
  | k :: ks, c :: cs => if c = k then matchLit ks cs else none

/-- Try each key in order (regex alternation order); first prefix match wins. -/
def matchKeys (keys : List (List Char)) (cs : List Char) : Option (List Char × List Char) :=
  match keys with
  | [] => none
  | k :: ks =>
    match matchLit k cs with
    | some rest => some (k, rest)
    | none => matchKeys ks cs

/-- Bare hour alternative `\d{1,2}` (two digits preferred, as the regex is greedy). -/
def matchBareHour : List Char → Option (List Char × List Char)
  | a :: b :: rest =>
    if a.isDigit ∧ b.isDigit then some ([a, b], rest)
    else if a.isDigit then some ([a], b :: rest)
    else none
  | [a] => if a.isDigit then some ([a], []) else none
  | [] => none

/-- Hour group of the regex: first alternative with a separator and two minute digits
(with the greedy-then-backtracking choice of one or two hour digits), else a bare number. -/
def matchHour (cs : List Char) : Option (List Char × List Char) :=
  match cs with
  | a :: b :: c :: d :: e :: rest =>
    if a.isDigit ∧ b.isDigit ∧ isSep c ∧ d.isDigit ∧ e.isDigit then
      some ([a, b, c, d, e], rest)
    else if a.isDigit ∧ isSep b ∧ c.isDigit ∧ d.isDigit then
      some ([a, b, c, d], e :: rest)
    else matchBareHour cs
  | a :: b :: c :: d :: [] =>
    if a.isDigit ∧ isSep b ∧ c.isDigit ∧ d.isDigit then some ([a, b, c, d], [])
    else matchBareHour (a :: b :: c :: d :: [])
  | cs => matchBareHour cs

/-- Range-mark group: a literal hyphen, the word "до", or a comma. -/
def matchRangeMark (cs : List Char) : Option (List Char × List Char) :=
  match cs with
  | [] => none
  | c :: rest =>
    if c = '-' then some (['-'], rest)
    else
      match matchLit (chars "до") (c :: rest) with
      | some rest2 => some (chars "до", rest2)
      | none => if c = ',' then some ([','], rest) else none

/-- Word group `\w+`: a maximal nonempty run of word characters. -/
def matchWord (cs : List Char) : Option (List Char × List Char) :=
  match cs with
  | [] => none
  | c :: rest =>
    if isWordChar c then some (c :: rest.takeWhile isWordChar, rest.dropWhile isWordChar)
    else none

/-- One scanning pass of `re.finditer` over the token pattern: at each position try
the five groups in priority order; characters matching no group are skipped.
The fuel argument is the remaining text length; every step consumes at least one
character, so the fuel never runs out when started at the text length. -/
def tokenizeGo : Nat → List Char → List Token
  | 0, _ => []
  | _ + 1, [] => []
  | fuel + 1, c :: cs2 =>
    match matchHour (c :: cs2) with
    | some (v, rest) => ⟨v, TokenKind.hour⟩ :: tokenizeGo fuel rest
    | none =>
      match matchKeys wdKeys (c :: cs2) with
      | some (v, rest) => ⟨v, TokenKind.weekday⟩ :: tokenizeGo fuel rest
      | none =>
        match matchKeys wrKeys (c :: cs2) with
        | some (v, rest) => ⟨v, TokenKind.weekday_range⟩ :: tokenizeGo fuel rest
        | none =>
          match matchRangeMark (c :: cs2) with
          | some (v, rest) => ⟨v, TokenKind.range_mark⟩ :: tokenizeGo fuel rest
          | none =>
            match matchWord (c :: cs2) with
            | some (v, rest) => ⟨v, TokenKind.word⟩ :: tokenizeGo fuel rest
            | none => tokenizeGo fuel cs2

/-- Token sequence of the preprocessed text. -/
def tokenize (cs : List Char) : List Token := tokenizeGo cs.length cs

/-- Days range (class `Range` instantiated at weekday numbers); both fields are
nullable exactly as in the source, where `Range(WEEKDAYS.get(v, None))` can in
principle receive `None`.  The source field `end` is called `stop` here because
`end` is reserved in Lean. -/
structure DaysRange where
  start : Option Nat
  stop : Option Nat
deriving DecidableEq, Repr

/-- Hours range (class `Range` instantiated at raw hour strings); `start` is always
the creating token's value, `stop` (source: `end`) may stay null. -/
structure HoursRange where
  start : List Char
  stop : Option (List Char)
deriving DecidableEq, Repr

/-- One emitted (days, hours) pair of `Parser.parse`. -/
abbrev RangePair := Option DaysRange × Option HoursRange

/-- Parser FSM states. -/
inductive PState
  | outside
  | inside
deriving DecidableEq, Repr

/-- Mutable state of `Parser` threaded through the parse loop. -/
structure ParserState where
  state : PState
  days_range : Option DaysRange
  hours_range : Option HoursRange
  show_room_flag : Bool
  ranges : List RangePair
deriving DecidableEq, Repr

/-- DAYTIME_TOKEN_TYPES. -/
def daytimeKinds : List TokenKind := [TokenKind.hour, TokenKind.weekday, TokenKind.weekday_range]

/-- SHOWROOM_WORDS. -/
def showroomWords : List (List Char) := [chars "продаж", chars "автосалон"]

/-- EXCLUDE_WORDS: the Cyrillic letter "с" and the Latin letter "c". -/
def excludeWords : List (List Char) := [chars "с", chars "c"]

/-- Parser.save_ranges: append the accumulated pair, reset the accumulators. -/
def saveRanges (st : ParserState) : ParserState :=
  { st with ranges := st.ranges ++ [(st.days_range, st.hours_range)],
            days_range := none, hours_range := none }

/-- Initial parser state. -/
def initState : ParserState := ⟨PState.outside, none, none, false, []⟩

/-- Last transition of the chain (new block starts while both ranges are accumulated). -/
def lastTransition (st : ParserState) (token : Token) : Option (ParserState × Bool) :=
  if st.state = PState.inside ∧ st.hours_range.isSome ∧ st.days_range.isSome ∧
      token.type ∈ daytimeKinds then
    some (saveRanges { st with state := PState.outside }, false)
  else some (st, false)

/-- Showroom early-stop transition; dereferences the lookahead, so a missing
lookahead here is an AttributeError (`none`). -/
def showroomStop (st : ParserState) (token : Token) (next_token : Option Token) :
    Option (ParserState × Bool) :=
  if st.state = PState.outside ∧ st.show_room_flag ∧ token.type ∉ daytimeKinds then
    match next_token with
    | none => none
    | some nt =>
      if nt.type ∉ daytimeKinds ∧ st.ranges ≠ [] then some (st, true)
      else lastTransition st token
  else lastTransition st token

/-- Transition chain of `Parser.parse`, evaluated in source order; the returned
Bool is the `break` decision, `none` is an uncaught exception. -/
def transitions (st : ParserState) (token : Token) (next_token : Option Token) :
    Option (ParserState × Bool) :=
  if st.state = PState.outside ∧ token.type ∈ daytimeKinds then
    some ({ st with state := PState.inside }, false)
  else if st.state = PState.inside ∧ token.type = TokenKind.word ∧
      token.value ∉ excludeWords then
    let st2 := saveRanges { st with state := PState.outside }
    some (st2, st2.show_room_flag)
  else if st.state = PState.inside ∧ token.type = TokenKind.range_mark then
    match next_token with
    | none => none
    | some nt =>
      if nt.type ∉ daytimeKinds then
        let st2 := saveRanges { st with state := PState.outside }
        some (st2, st2.show_room_flag)
      else showroomStop st token next_token
  else showroomStop st token next_token

/-- Parser.handle_datetime_state; the range-mark branches dereference the lookahead. -/
def handle_datetime_state (st : ParserState) (token : Token) (next_token : Option Token) :
    Option ParserState :=
  if token.type = TokenKind.hour ∧ st.hours_range = none then
    some { st with hours_range := some ⟨token.value, none⟩ }
  else if token.type = TokenKind.weekday ∧ st.days_range = none then
    some { st with days_range := some ⟨wdLookup token.value, wdLookup token.value⟩ }
  else if token.type = TokenKind.weekday_range ∧ st.days_range = none then
    match wrLookup token.value with
    | some p => some { st with days_range := some ⟨some p.1, some p.2⟩ }
    | none => some st
  else if token.type = TokenKind.range_mark then
    match next_token with
    | none => none
    | some nt =>
      if nt.type = TokenKind.hour ∧ st.hours_range.isSome then
        some { st with hours_range := st.hours_range.map fun hr => { hr with stop := some nt.value } }
      else if nt.type = TokenKind.weekday ∧ st.days_range.isSome then
        some { st with days_range := st.days_range.map fun dr => { dr with stop := wdLookup nt.value } }
      else some st
  else some st

/-- Parser.handle_outside_datetime_state: set the showroom flag on a marker word. -/
def handle_outside_datetime_state (st : ParserState) (token : Token) : ParserState :=
  if token.value ∈ showroomWords then { st with show_room_flag := true } else st

/-- Parser.handle_state: dispatch on the (post-transition) state. -/
def handle_state (st : ParserState) (token : Token) (next_token : Option Token) :
    Option ParserState :=
  match st.state with
  | PState.inside => handle_datetime_state st token next_token
  | PState.outside => some (handle_outside_datetime_state st token)

/-- Identity on an optional days range, written as a deep pattern match so that
reduction brings the value into constructor form (an evaluation aid; see
`forceState_eq`). -/
def forceDays {α : Type} : Option DaysRange → (Option DaysRange → α) → α
  | none, k => k none
  | some ⟨none, none⟩, k => k (some ⟨none, none⟩)
  | some ⟨none, some e⟩, k => k (some ⟨none, some e⟩)
  | some ⟨some s, none⟩, k => k (some ⟨some s, none⟩)
  | some ⟨some s, some e⟩, k => k (some ⟨some s, some e⟩)

/-- Identity on an optional hours range, in deep-pattern form. -/
def forceHours {α : Type} : Option HoursRange → (Option HoursRange → α) → α
  | none, k => k none
  | some ⟨v, none⟩, k => k (some ⟨v, none⟩)
  | some ⟨v, some e⟩, k => k (some ⟨v, some e⟩)

/-- Identity on a parser state, in deep-pattern form: it rebuilds the state in
constructor form before handing it to the continuation, which keeps kernel
reduction of the parse loop linear in the token count. -/
def forceState {α : Type} : ParserState → (ParserState → α) → α
  | ⟨s, dr, hr, false, rs⟩, k =>
    forceDays dr fun dr2 => forceHours hr fun hr2 => k ⟨s, dr2, hr2, false, rs⟩
  | ⟨s, dr, hr, true, rs⟩, k =>
    forceDays dr fun dr2 => forceHours hr fun hr2 => k ⟨s, dr2, hr2, true, rs⟩

/-- Main loop of `Parser.parse`: one iteration per current token, with the
lookahead being the head of the remaining tokens. -/
def parseLoop : ParserState → Token → List Token → Option (List RangePair)
  | st, token, rest =>
    let next_token := rest.head?
    match transitions st token next_token with
    | none => none
    | some (st1, brk) =>
      if brk then some st1.ranges
      else
        match handle_state st1 token next_token with
        | none => none
        | some st2 =>
          let st3 :=
            if next_token = none ∧ st2.state = PState.inside then saveRanges st2 else st2
          match rest with
          | [] => some st3.ranges
          | t :: ts => forceState st3 fun st4 => parseLoop st4 t ts

/-- Parser.parse on raw text: preprocess, tokenize, run the FSM. -/
def parse (text : String) : Option (List RangePair) :=
  match tokenize (preprocess (chars text)) with
  | [] => some []
  | t :: ts => parseLoop initState t ts

/-- The per-weekday table `_raw_schedule`, an `OrderedDict` modelled as an ordered
association list (update in place keeps the position, a fresh key is appended). -/
abbrev RawSchedule := List (Nat × Option HoursRange)

/-- Initial raw schedule: the seven weekday keys in ascending order, all unset. -/
def initRaw : RawSchedule :=
  [(1, none), (2, none), (3, none), (4, none), (5, none), (6, none), (7, none)]

/-- OrderedDict item assignment. -/
def dictSet : RawSchedule → Nat → Option HoursRange → RawSchedule
  | [], k, v => [(k, v)]
  | kv :: rest, k, v => if kv.1 = k then (kv.1, v) :: rest else kv :: dictSet rest k v

/-- OrderedDict item lookup; `none` is a KeyError. -/
def dictGet (raw : RawSchedule) (k : Nat) : Option (Option HoursRange) :=
  assocLookup raw k

/-- Assignment loop `for day in range(start, end + 1)` of a days-range pair;
empty when start exceeds end. -/
def assignRange (raw : RawSchedule) (s e : Nat) (v : Option HoursRange) : RawSchedule :=
  (List.range' s (e + 1 - s)).foldl (fun r d => dictSet r d v) raw

/-- Assignment loop of a pair with no days-range: every existing key receives
the hours range (`for day in self._raw_schedule.keys()`). -/
def assignAll (raw : RawSchedule) (hr : HoursRange) : RawSchedule :=
  raw.map fun kv => (kv.1, some hr)

/-- One iteration of the `WorkingHours.__init__` folding loop; `none` is the
TypeError from `range` on a null bound, or the explicit ValueError when both
parts of the pair are null. -/
def applyPair (raw : RawSchedule) (p : RangePair) : Option RawSchedule :=
  match p.1 with
  | some dr =>
    match dr.start, dr.stop with
    | some s, some e => some (assignRange raw s e p.2)
    | _, _ => none
  | none =>
    match p.2 with
    | some hr => some (assignAll raw hr)
    | none => none

/-- Folding the emitted pair sequence into the raw schedule. -/
def buildRaw : RawSchedule → List RangePair → Option RawSchedule
  | raw, [] => some raw
  | raw, p :: ps =>
    match applyPair raw p with
    | some raw2 => buildRaw raw2 ps
    | none => none

/-- Time-of-day value produced by `parse_hours` (hour, minute); seconds and
microseconds of the result are always zero. -/
abbrev ClockTime := Nat × Nat

/-- Value of an ASCII digit. -/
def digitVal (c : Char) : Nat := c.toNat - '0'.toNat

/-- The `%H` field of `strptime`: regex `2[0-3]|[0-1]\d|\d`, alternatives in order. -/
def matchHourField : List Char → Option (Nat × List Char)
  | a :: b :: rest =>
    if a = '2' ∧ '0' ≤ b ∧ b ≤ '3' then some (20 + digitVal b, rest)
    else if (a = '0' ∨ a = '1') ∧ b.isDigit then some (10 * digitVal a + digitVal b, rest)
    else if a.isDigit then some (digitVal a, b :: rest)
    else none
  | [a] => if a.isDigit then some (digitVal a, []) else none
  | [] => none

/-- The `%M` field of `strptime`: regex `[0-5]\d|\d`. -/
def matchMinField : List Char → Option (Nat × List Char)
  | a :: b :: rest =>
    if '0' ≤ a ∧ a ≤ '5' ∧ b.isDigit then some (10 * digitVal a + digitVal b, rest)
    else if a.isDigit then some (digitVal a, b :: rest)
    else none
  | [a] => if a.isDigit then some (digitVal a, []) else none
  | [] => none

/-- Python `datetime.strptime(s, "%H" ++ sep ++ "%M")`: the whole string must be
consumed, otherwise a ValueError is raised (modelled as `none`). -/
def strptimeHM (sep : Char) (s : List Char) : Option ClockTime :=
  match matchHourField s with
  | some (h, c :: rest) =>
    if c = sep then
      match matchMinField rest with
      | some (m, []) => some (h, m)
      | _ => none
    else none
  | _ => none

/-- Python `datetime.strptime(s, "%H")` (minute zero on success). -/
def strptimeH (s : List Char) : Option ClockTime :=
  match matchHourField s with
  | some (h, []) => some (h, 0)
  | _ => none

/-- WorkingHours.parse_hours on a string bound: the formats `%H:%M`, `%H.%M`,
`%H-%M` are tried in order, then bare `%H`; `none` means every format raised
ValueError and the Python function returned `None`. -/
def parseHoursStr (s : List Char) : Option ClockTime :=
  (strptimeHM ':' s).orElse fun _ =>
    (strptimeHM '.' s).orElse fun _ =>
      (strptimeHM '-' s).orElse fun _ => strptimeH s

/-- WorkingHours.parse_hours on a nullable bound: `strptime(None, fmt)` raises an
uncaught TypeError (outer `none`); an inner `none` is the caught-ValueError path. -/
def parseHoursOpt : Option (List Char) → Option (Option ClockTime)
  | none => none
  | some s => some (parseHoursStr s)

/-- Point in time handed to the queries: ISO weekday plus time of day. -/
structure Instant where
  wd : Nat
  hour : Nat
  minute : Nat
  second : Nat
  micro : Nat
deriving DecidableEq, Repr

/-- Time-of-day tuple of an instant, as compared by the datetime ordering
(the compared datetimes share the instant's date). -/
def timeTuple (dt : Instant) : Nat × Nat × Nat × Nat :=
  (dt.hour, dt.minute, dt.second, dt.micro)

/-- Lexicographic strict order on time-of-day tuples. -/
def tupLtProp (a b : Nat × Nat × Nat × Nat) : Prop :=
  a.1 < b.1 ∨ (a.1 = b.1 ∧ (a.2.1 < b.2.1 ∨ (a.2.1 = b.2.1 ∧
    (a.2.2.1 < b.2.2.1 ∨ (a.2.2.1 = b.2.2.1 ∧ a.2.2.2 < b.2.2.2)))))

instance (a b : Nat × Nat × Nat × Nat) : Decidable (tupLtProp a b) := by
  unfold tupLtProp; infer_instance

/-- Boolean strict comparison of datetimes sharing a date. -/
def tupLt (a b : Nat × Nat × Nat × Nat) : Bool := decide (tupLtProp a b)

/-- Boolean non-strict comparison of datetimes sharing a date. -/
def tupLe (a b : Nat × Nat × Nat × Nat) : Bool := decide (a = b) || tupLt a b

/-- WorkingHours.check_working_time; `none` is an uncaught exception (KeyError on
a missing weekday key, or the TypeError of `parse_hours` on a null end bound). -/
def check_working_time (raw : RawSchedule) (dt : Instant) : Option Bool :=
  match dictGet raw dt.wd with
  | none => none
  | some none => some false
  | some (some hr) =>
    let sd := parseHoursStr hr.start
    match hr.stop with
    | none => none
    | some es =>
      let ed := parseHoursStr es
      match sd, ed with
      | some s, some e =>
        some (tupLe (s.1, s.2, 0, 0) (timeTuple dt) && tupLt (timeTuple dt) (e.1, e.2, 0, 0))
      | _, _ => some true

/-- Loop of `get_next_working_day`: `while next_day != current` with the step
`next_day % 7 + 1`.  Fuel 7 is exact for a current day in 1..7, because the step
function cycles through all seven residues before revisiting the current day;
`none` is a KeyError on a missing schedule key. -/
def gnwdAux (raw : RawSchedule) (current : Nat) : Nat → Nat → Option (Option Nat)
  | 0, _ => some none
  | fuel + 1, nd =>
    if nd = current then some none
    else
      match dictGet raw nd with
      | none => none
      | some hv => if hv.isSome then some (some nd) else gnwdAux raw current fuel (nd % 7 + 1)

/-- WorkingHours.get_next_working_day. -/
def get_next_working_day (raw : RawSchedule) (dt : Instant) : Option (Option Nat) :=
  gnwdAux raw dt.wd 7 (dt.wd % 7 + 1)

/-- Built schedule as returned by `build_schedule`: weekday to optional pair of
(possibly unparsed, hence null) clock times. -/
abbrev ScheduleT := List (Nat × Option (Option ClockTime × Option ClockTime))

/-- WorkingHours.build_schedule; `none` is the TypeError of `parse_hours` on a
null end bound. -/
def buildSchedule (raw : RawSchedule) : Option ScheduleT :=
  raw.mapM fun kv =>
    match kv.2 with
    | some hr =>
      match parseHoursOpt (some hr.start), parseHoursOpt hr.stop with
      | some sd, some ed => some (kv.1, some (sd, ed))
      | _, _ => none
    | none => some (kv.1, none)

set_option synthInstance.maxSize 512 in
instance instDecEqScheduleT : DecidableEq ScheduleT := inferInstance

instance instDecEqOptScheduleT : DecidableEq (Option ScheduleT) :=
  fun a b =>
    match a, b with
    | none, none => Decidable.isTrue rfl
    | some x, some y =>
      match instDecEqScheduleT x y with
      | Decidable.isTrue h => Decidable.isTrue (by rw [h])
      | Decidable.isFalse h => Decidable.isFalse (by simp [h])
    | none, some _ => Decidable.isFalse (by simp)
    | some _, none => Decidable.isFalse (by simp)

/-- The WorkingHours object: the raw schedule plus the lazily cached `schedule`
attribute (set to `None` by `__init__` and never assigned afterwards). -/
structure WorkingHours where
  raw : RawSchedule
  schedule : Option ScheduleT
deriving DecidableEq, Repr

/-- WorkingHours.__init__: parse the text, fold the pairs; `none` propagates any
exception of the parse or of the folding loop. -/
def workingHoursInit (text : String) : Option WorkingHours :=
  (parse text).bind fun rs => (buildRaw initRaw rs).map fun raw => ⟨raw, none⟩

/-- Two-letter weekday names used by `print_schedule` (comprehension over
`WEEKDAYS` keeping keys of length two). -/
def weekdayNames : List (Nat × List Char) :=
  [(1, chars "пн"), (2, chars "вт"), (3, chars "ср"), (4, chars "чт"),
   (5, chars "пт"), (6, chars "сб"), (7, chars "вс")]

/-- Decimal digits of a number, two digits minimum. -/
def pad2 (n : Nat) : List Char := if n < 10 then '0' :: (toString n).data else (toString n).data

/-- Model of `strftime` restricted to the `%H` and `%M` directives (the program
formats times with "%H:%M"); other characters are emitted literally. -/
def strftime (t : ClockTime) : List Char → List Char
  | [] => []
  | '%' :: 'H' :: rest => pad2 t.1 ++ strftime t rest
  | '%' :: 'M' :: rest => pad2 t.2 ++ strftime t rest
  | c :: rest => c :: strftime t rest

/-- One line of `print_schedule`; `none` is the AttributeError of calling
`strftime` on a `None` bound. -/
def renderLine (weekend fmt : List Char) (kv : Nat × Option (Option ClockTime × Option ClockTime)) :
    Option (List Char) :=
  let name := (assocLookup weekdayNames kv.1).getD []
  match kv.2 with
  | none => some (name ++ chars ": " ++ weekend)
  | some (st, en) =>
    match st, en with
    | some s, some e => some (name ++ chars ": " ++ strftime s fmt ++ chars " - " ++ strftime e fmt)
    | _, _ => none

/-- Join with a delimiter (`delimiter.join`). -/
def joinD (delim : List Char) : List (List Char) → List Char
  | [] => []
  | [l] => l
  | l :: ls => l ++ delim ++ joinD delim ls

/-- WorkingHours.print_schedule.  The source calls `self.build_schedule()` when
`self.schedule` is null but discards the returned value, then iterates
`self.schedule.keys()`; the latter is an AttributeError (`none`) whenever
`self.schedule` is still null. -/
def print_schedule (wh : WorkingHours) (fmt delim weekend : List Char) : Option (List Char) :=
  let pre : Option Unit :=
    if wh.schedule = none then (buildSchedule wh.raw).map fun _ => () else some ()
  pre.bind fun _ =>
    match wh.schedule with
    | none => none
    | some sched => (sched.mapM (renderLine weekend fmt)).map (joinD delim)

/-- The `WorkingHours` value built from the running example text. -/
def wh0 : WorkingHours := (workingHoursInit "Пн-Пт: 9.00-19.00").getD ⟨[], none⟩

/-- Day sequence visited by the `get_next_working_day` loop, starting at `nd` and
stepping by `nd % 7 + 1` until the current day is reached (or the fuel ends). -/
def orbit (current : Nat) : Nat → Nat → List Nat
  | 0, _ => []
  | fuel + 1, nd => if nd = current then [] else nd :: orbit current fuel (nd % 7 + 1)

/-- Scan order of `get_next_working_day` for a weekday `w`: the six days after
`w`, wrapping at 7 and excluding `w` itself. -/
def scanOrder (w : Nat) : List Nat := orbit w 7 (w % 7 + 1)

/-- Truthiness test of the stored slot used by the loop (`if hours:`). -/
def isOpenDay (raw : RawSchedule) (k : Nat) : Bool :=
  match dictGet raw k with
  | some (some _) => true
  | _ => false

/-- Well-formedness of the days part of an emitted pair: null, or both bounds
set to weekday numbers in 1..7. -/
def goodDays : Option DaysRange → Prop
  | none => True
  | some dr => ∃ s e, dr.start = some s ∧ dr.stop = some e ∧
      1 ≤ s ∧ s ≤ 7 ∧ 1 ≤ e ∧ e ≤ 7

/-- Well-formedness of a token: a weekday token's value is a lexicon key
(guaranteed by the tokenizer, which only emits matched keys). -/
def wfTok (t : Token) : Prop :=
  t.type = TokenKind.weekday → (wdLookup t.value).isSome

/-- Invariant of the parser state: the accumulated days range and every days
range already emitted are well-formed. -/
def goodState (st : ParserState) : Prop :=
  goodDays st.days_range ∧ ∀ p ∈ st.ranges, goodDays p.1

/-- Concrete schedule with two open days, for the C7 witness. -/
def rawTwo : RawSchedule :=
  [(1, some ⟨chars "9", some (chars "19")⟩), (2, some ⟨chars "10", none⟩),
   (3, none), (4, none), (5, none), (6, none), (7, none)]

/-- Concrete schedule with one open day (Wednesday), for the C4 witness. -/
def rawWed : RawSchedule :=
  [(1, none), (2, none), (3, some ⟨chars "9", some (chars "19")⟩),
   (4, none), (5, none), (6, none), (7, none)]

/-- Concrete parser state with the showroom flag set and one emitted pair, for
the C9 witness. -/
def showroomState : ParserState :=
  ⟨PState.outside, none, none, true, [(none, some ⟨chars "9", none⟩)]⟩

/-! Helper lemmas about the ordered-dictionary operations. -/

theorem dictGet_dictSet_self (raw : RawSchedule) (k : Nat) (v : Option HoursRange) :
    dictGet (dictSet raw k v) k = some v := by
  induction raw with
  | nil => simp [dictSet, dictGet, assocLookup]
  | cons kv rest ih =>
    by_cases h : kv.1 = k
    · simp [dictSet, dictGet, assocLookup, h]
    · simp only [dictSet, dictGet, assocLookup, if_neg h]
      exact ih

theorem dictGet_dictSet_ne (raw : RawSchedule) (k j : Nat) (v : Option HoursRange)
    (h : k ≠ j) : dictGet (dictSet raw k v) j = dictGet raw j := by
  induction raw with
  | nil => simp [dictSet, dictGet, assocLookup, h]
  | cons kv rest ih =>
    by_cases hk : kv.1 = k
    · simp [dictSet, dictGet, assocLookup, hk, h]
    · simp only [dictSet, dictGet, assocLookup, if_neg hk]
      by_cases hj : kv.1 = j
      · simp [hj]
      · simp only [if_neg hj]
        exact ih

theorem foldl_dictSet_not_mem (l : List Nat) (raw : RawSchedule) (k : Nat)
    (v : Option HoursRange) (h : k ∉ l) :
    dictGet (l.foldl (fun r d => dictSet r d v) raw) k = dictGet raw k := by
  induction l generalizing raw with
  | nil => rfl
  | cons d ds ih =>
    have hdk : d ≠ k := fun hdk => h (hdk ▸ List.mem_cons_self d ds)
    have hds : k ∉ ds := fun hm => h (List.mem_cons_of_mem d hm)
    simp only [List.foldl_cons]
    rw [ih (dictSet raw d v) hds, dictGet_dictSet_ne raw d k v hdk]

theorem foldl_dictSet_mem (l : List Nat) (raw : RawSchedule) (k : Nat)
    (v : Option HoursRange) (h : k ∈ l) :
    dictGet (l.foldl (fun r d => dictSet r d v) raw) k = some v := by
  induction l generalizing raw with
  | nil => cases h
  | cons d ds ih =>
    simp only [List.foldl_cons]
    by_cases hds : k ∈ ds
    · exact ih (dictSet raw d v) hds
    · have hdk : d = k := by
        rcases List.mem_cons.1 h with h1 | h1
        · exact h1.symm
        · exact absurd h1 hds
      rw [foldl_dictSet_not_mem ds (dictSet raw d v) k v hds, hdk, dictGet_dictSet_self]

theorem assignRange_get (raw : RawSchedule) (s e k : Nat) (v : Option HoursRange)
    (hs : s ≤ k) (he : k ≤ e) : dictGet (assignRange raw s e v) k = some v := by
  unfold assignRange
  apply foldl_dictSet_mem
  rw [List.mem_range'_1]
  omega

theorem assignAll_get (raw : RawSchedule) (hr : HoursRange) (k : Nat) (v : Option HoursRange)
    (h : dictGet raw k = some v) : dictGet (assignAll raw hr) k = some (some hr) := by
  induction raw with
  | nil => cases h
  | cons kv rest ih =>
    by_cases hk : kv.1 = k
    · simp [assignAll, dictGet, assocLookup, hk]
    · simp only [dictGet, assocLookup, if_neg hk] at h
      simp only [assignAll, List.map_cons, dictGet, assocLookup, if_neg hk]
      exact ih h

/-! Claim theorems. -/

/-- C1: Parser.parse is claimed never to raise on any text, with text ending in a
range mark named as the example of tolerated malformed input.  On exactly such a
text the source dereferences the absent lookahead (`next_token.type` with
`next_token = None`) and raises AttributeError, modelled by the `none` result. -/
theorem c1_parse_crashes_on_trailing_range_mark : parse "пн-" = none := by decide

/-- C8: parsing "Пн-Пт: 9.00-19.00" yields exactly one pair, days (1,5) and
hours ("9.00", "19.00"). -/
theorem c8_example_parse :
    parse "Пн-Пт: 9.00-19.00" =
      some [(some ⟨some 1, some 5⟩, some ⟨chars "9.00", some (chars "19.00")⟩)] := by decide

/-- C2 counterexample: after the pair sequence of the text "пн 9 x 10" - a
days-range pair setting Monday to hours "9", then a pair with no days-range and
hours "10" - Monday's slot holds "10": the no-days pair overwrote a weekday that
was already set, contradicting the claimed fill-only-unset behaviour. -/
theorem c2_counterexample :
    (workingHoursInit "пн 9 x 10").map (fun w => dictGet w.raw 1) =
      some (some (some ⟨chars "10", none⟩)) ∧
    (⟨chars "10", none⟩ : HoursRange) ≠ ⟨chars "9", none⟩ :=
  ⟨by decide, by decide⟩

/-- C2 (amended): a pair with a days-range assigns its hours to every weekday in
the inclusive range, overwriting prior values, and a pair with no days-range
assigns its hours to every existing weekday key, also overwriting prior values;
there is no fill-only-unset asymmetry. -/
theorem c2_no_days_pair_overwrites (raw : RawSchedule) (hr : HoursRange) (k : Nat)
    (v : Option HoursRange) (hget : dictGet raw k = some v) :
    (applyPair raw (none, some hr) = some (assignAll raw hr) ∧
      dictGet (assignAll raw hr) k = some (some hr)) ∧
    ∀ s e hrs, s ≤ k → k ≤ e →
      applyPair raw (some ⟨some s, some e⟩, hrs) = some (assignRange raw s e hrs) ∧
      dictGet (assignRange raw s e hrs) k = some hrs := by
  refine ⟨⟨rfl, assignAll_get raw hr k v hget⟩, ?_⟩
  intro s e hrs hs he
  exact ⟨rfl, assignRange_get raw s e k hrs hs he⟩

/-- C2 witness: the amended overwrite behaviour at a concrete schedule. -/
theorem c2_witness :
    dictGet [(1, some ⟨chars "9", none⟩), (2, none)] 1 = some (some ⟨chars "9", none⟩) ∧
    ((applyPair [(1, some ⟨chars "9", none⟩), (2, none)] (none, some ⟨chars "10", none⟩) =
        some (assignAll [(1, some ⟨chars "9", none⟩), (2, none)] ⟨chars "10", none⟩) ∧
      dictGet (assignAll [(1, some ⟨chars "9", none⟩), (2, none)] ⟨chars "10", none⟩) 1 =
        some (some ⟨chars "10", none⟩)) ∧
    ∀ s e hrs, s ≤ 1 → 1 ≤ e →
      applyPair [(1, some ⟨chars "9", none⟩), (2, none)] (some ⟨some s, some e⟩, hrs) =
        some (assignRange [(1, some ⟨chars "9", none⟩), (2, none)] s e hrs) ∧
      dictGet (assignRange [(1, some ⟨chars "9", none⟩), (2, none)] s e hrs) 1 = some hrs) :=
  ⟨by decide, c2_no_days_pair_overwrites _ _ 1 (some ⟨chars "9", none⟩) (by decide)⟩

/-- C3: print_schedule never succeeds on a constructed WorkingHours, because
`__init__` sets the `schedule` attribute to null and `print_schedule` discards
the value returned by `build_schedule`, then dereferences the still-null
attribute (AttributeError). -/
theorem c3_print_schedule_always_fails (text : String) (wh : WorkingHours)
    (h : workingHoursInit text = some wh) (fmt delim weekend : List Char) :
    print_schedule wh fmt delim weekend = none := by
  obtain ⟨rs, hrs, h2⟩ := Option.bind_eq_some.1 h
  obtain ⟨raw, hraw, h3⟩ := Option.map_eq_some'.1 h2
  have hsch : wh.schedule = none := by rw [← h3]
  simp only [print_schedule, hsch, if_pos rfl]
  cases buildSchedule wh.raw <;> rfl

/-- C3 witness: the formatted-schedule operation fails on the running example. -/
theorem c3_witness :
    workingHoursInit "Пн-Пт: 9.00-19.00" = some wh0 ∧
    print_schedule wh0 (chars "%H:%M") (chars "
") (chars "выходной") = none :=
  ⟨by decide, c3_print_schedule_always_fails "Пн-Пт: 9.00-19.00" wh0 (by decide) _ _ _⟩

/-- C5 counterexample: for the text "пн 9" Monday's stored hours-range has a
never-set (null) end bound, and check_working_time raises an uncaught TypeError
(`strptime(None, ...)`) instead of returning the claimed safe default True. -/
theorem c5_counterexample :
    (workingHoursInit "пн 9").map (fun w => dictGet w.raw 1) =
      some (some (some ⟨chars "9", none⟩)) ∧
    (workingHoursInit "пн 9").map (fun w => check_working_time w.raw ⟨1, 10, 0, 0, 0⟩) =
      some none :=
  ⟨by decide, by decide⟩

/-- C5 (amended): when both bounds of the stored hours-range are present strings
and either fails to parse in all formats, check_working_time returns True; a
never-set end bound instead raises an uncaught TypeError. -/
theorem c5_unparsable_string_bound_open (raw : RawSchedule) (dt : Instant) (hr : HoursRange)
    (es : List Char) (hget : dictGet raw dt.wd = some (some hr)) (hend : hr.stop = some es)
    (hfail : parseHoursStr hr.start = none ∨ parseHoursStr es = none) :
    check_working_time raw dt = some true := by
  simp only [check_working_time, hget, hend]
  rcases hs : parseHoursStr hr.start with _ | s <;> rcases he : parseHoursStr es with _ | e <;>
    simp_all

/-- C5 witness: an unparsable open bound ("99" fits no hour format) yields True. -/
theorem c5_witness :
    dictGet [(1, some ⟨chars "99", some (chars "19")⟩)] 1 =
      some (some ⟨chars "99", some (chars "19")⟩) ∧
    HoursRange.stop ⟨chars "99", some (chars "19")⟩ = some (chars "19") ∧
    (parseHoursStr (chars "99") = none ∨ parseHoursStr (chars "19") = none) ∧
    check_working_time [(1, some ⟨chars "99", some (chars "19")⟩)] ⟨1, 12, 0, 0, 0⟩ =
      some true :=
  ⟨by decide, by decide, by decide,
    c5_unparsable_string_bound_open [(1, some ⟨chars "99", some (chars "19")⟩)]
      ⟨1, 12, 0, 0, 0⟩ ⟨chars "99", some (chars "19")⟩ (chars "19")
      (by decide) (by decide) (by decide)⟩

/-- C6 counterexample: for the text "пн 9-9" both bounds of Monday's hours-range
parse successfully (to 9:00), yet check_working_time at the exact open time
returns False, refuting the claim for ranges whose open time is not strictly
before the close time. -/
theorem c6_counterexample :
    (workingHoursInit "пн 9-9").map (fun w => dictGet w.raw 1) =
      some (some (some ⟨chars "9", some (chars "9")⟩)) ∧
    parseHoursStr (chars "9") = some (9, 0) ∧
    (workingHoursInit "пн 9-9").map (fun w => check_working_time w.raw ⟨1, 9, 0, 0, 0⟩) =
      some (some false) :=
  ⟨by decide, by decide, by decide⟩

/-- C6 (amended): for a stored hours-range whose bounds both parse and whose open
time is strictly before its close time, check_working_time is True at an instant
exactly at the open time and False at an instant exactly at the close time. -/
theorem c6_half_open_boundaries (raw : RawSchedule) (wd : Nat) (hr : HoursRange)
    (es : List Char) (sH sM eH eM : Nat)
    (hget : dictGet raw wd = some (some hr)) (hend : hr.stop = some es)
    (hs : parseHoursStr hr.start = some (sH, sM)) (he : parseHoursStr es = some (eH, eM))
    (hlt : sH < eH ∨ (sH = eH ∧ sM < eM)) :
    check_working_time raw ⟨wd, sH, sM, 0, 0⟩ = some true ∧
    check_working_time raw ⟨wd, eH, eM, 0, 0⟩ = some false := by
  have hle : tupLe (sH, sM, 0, 0) (sH, sM, 0, 0) = true := by
    simp [tupLe]
  have hlt1 : tupLt (sH, sM, 0, 0) (eH, eM, 0, 0) = true := by
    simp only [tupLt, tupLtProp, decide_eq_true_eq]
    omega
  have hlt2 : tupLt (eH, eM, 0, 0) (eH, eM, 0, 0) = false := by
    simp only [tupLt, tupLtProp, decide_eq_false_iff_not]
    omega
  constructor
  · simp only [check_working_time, hget, hend, hs, he, timeTuple]
    rw [hle, hlt1]
    rfl
  · simp only [check_working_time, hget, hend, hs, he, timeTuple]
    rw [hlt2, Bool.and_false]

/-- Force helpers are identities (needed to reason about the parse loop). -/
theorem forceDays_eq {α : Type} (dr : Option DaysRange) (k : Option DaysRange → α) :
    forceDays dr k = k dr := by
  rcases dr with _ | ⟨_ | s, _ | e⟩ <;> rfl

theorem forceHours_eq {α : Type} (hr : Option HoursRange) (k : Option HoursRange → α) :
    forceHours hr k = k hr := by
  rcases hr with _ | ⟨v, _ | e⟩ <;> rfl

theorem forceState_eq {α : Type} (st : ParserState) (k : ParserState → α) :
    forceState st k = k st := by
  rcases st with ⟨s, dr, hr, fl, rs⟩
  cases fl <;> simp only [forceState, forceDays_eq, forceHours_eq]

/-- Value returned by the `get_next_working_day` loop is never the current day. -/
theorem gnwdAux_ne (raw : RawSchedule) (current : Nat) :
    ∀ fuel nd d, gnwdAux raw current fuel nd = some (some d) → d ≠ current := by
  intro fuel
  induction fuel with
  | zero => intro nd d h; simp [gnwdAux] at h
  | succ fuel ih =>
    intro nd d h
    by_cases hc : nd = current
    · rw [gnwdAux, if_pos hc] at h
      simp at h
    · rw [gnwdAux, if_neg hc] at h
      cases hg : dictGet raw nd with
      | none => rw [hg] at h; cases h
      | some hv =>
        rw [hg] at h
        cases hv with
        | none => exact ih _ _ h
        | some hr =>
          simp only [Option.isSome_some, if_pos] at h
          have : nd = d := by simpa using h
          exact this ▸ hc

/-- The loop visits exactly the orbit and returns its first open day, provided
every visited key is present (no KeyError). -/
theorem gnwdAux_eq_find (raw : RawSchedule) (current : Nat) :
    ∀ fuel nd, (∀ k ∈ orbit current fuel nd, (dictGet raw k).isSome) →
      gnwdAux raw current fuel nd =
        some (List.find? (fun k => isOpenDay raw k) (orbit current fuel nd)) := by
  intro fuel
  induction fuel with
  | zero => intro nd _; simp [gnwdAux, orbit]
  | succ fuel ih =>
    intro nd hk
    by_cases hc : nd = current
    · rw [gnwdAux, if_pos hc]
      rw [orbit, if_pos hc]
      rfl
    · rw [gnwdAux, if_neg hc]
      rw [orbit, if_neg hc] at hk ⊢
      have hnd : (dictGet raw nd).isSome := hk nd (List.mem_cons_self _ _)
      cases hg : dictGet raw nd with
      | none => rw [hg] at hnd; cases hnd
      | some hv =>
        cases hv with
        | none =>
          have hopen : isOpenDay raw nd = false := by simp [isOpenDay, hg]
          rw [List.find?_cons_of_neg _ (by simp [hopen])]
          exact ih _ fun k hm => hk k (List.mem_cons_of_mem _ hm)
        | some hr =>
          have hopen : isOpenDay raw nd = true := by simp [isOpenDay, hg]
          rw [List.find?_cons_of_pos _ hopen]
          rfl

/-- Membership in the scan order of a weekday in 1..7: exactly the other six
weekday numbers. -/
theorem scanOrder_mem (w k : Nat) (h1 : 1 ≤ w) (h2 : w ≤ 7) :
    k ∈ scanOrder w ↔ (1 ≤ k ∧ k ≤ 7 ∧ k ≠ w) := by
  interval_cases w <;>
    simp only [scanOrder, orbit, show (7:Nat) = 6 + 1 from rfl] <;>
    norm_num <;> omega

/-- C7: get_next_working_day never returns the weekday of the instant itself,
even when that weekday has hours. -/
theorem c7_never_returns_same_day (raw : RawSchedule) (dt : Instant) (d : Nat)
    (h1 : 1 ≤ dt.wd) (h2 : dt.wd ≤ 7)
    (h : get_next_working_day raw dt = some (some d)) : d ≠ dt.wd :=
  gnwdAux_ne raw dt.wd 7 _ d h

/-- C7 witness: with both Monday and Tuesday open, the query at a Monday instant
returns Tuesday, not Monday. -/
theorem c7_witness :
    (1 ≤ (1 : Nat) ∧ (1 : Nat) ≤ 7 ∧
      get_next_working_day rawTwo ⟨1, 12, 0, 0, 0⟩ = some (some 2)) ∧ (2 : Nat) ≠ 1 :=
  ⟨⟨by decide, by decide, by decide⟩,
    c7_never_returns_same_day rawTwo ⟨1, 12, 0, 0, 0⟩ 2 (by decide) (by decide) (by decide)⟩

/-- C4 counterexample: for the text "пн 9.00-19.00" only Monday has hours; at a
Monday instant get_next_working_day returns None although a day (Monday itself)
has hours, refuting "None exactly when no day has hours". -/
theorem c4_counterexample :
    (workingHoursInit "пн 9.00-19.00").map
        (fun w => get_next_working_day w.raw ⟨1, 10, 0, 0, 0⟩) = some (some none) ∧
    (workingHoursInit "пн 9.00-19.00").map (fun w => isOpenDay w.raw 1) = some true :=
  ⟨by decide, by decide⟩

/-- C4 (amended): with all seven keys present, get_next_working_day scans the six
days after the instant's weekday in wrapping order and returns the first with a
non-null hours range; it returns None exactly when no day other than the
instant's own weekday has hours. -/
theorem c4_next_working_day_characterization (raw : RawSchedule) (dt : Instant)
    (h1 : 1 ≤ dt.wd) (h2 : dt.wd ≤ 7)
    (hkeys : ∀ k ∈ List.range' 1 7, (dictGet raw k).isSome) :
    get_next_working_day raw dt =
      some (List.find? (fun k => isOpenDay raw k) (scanOrder dt.wd)) ∧
    (get_next_working_day raw dt = some none ↔
      ∀ k, 1 ≤ k → k ≤ 7 → k ≠ dt.wd → isOpenDay raw k = false) := by
  have hfind : get_next_working_day raw dt =
      some (List.find? (fun k => isOpenDay raw k) (scanOrder dt.wd)) := by
    unfold get_next_working_day
    apply gnwdAux_eq_find
    intro k hm
    apply hkeys
    rw [List.mem_range'_1]
    have hk := (scanOrder_mem dt.wd k h1 h2).1 hm
    omega
  refine ⟨hfind, ?_⟩
  rw [hfind]
  constructor
  · intro h k hk1 hk7 hkw
    have hn : List.find? (fun k => isOpenDay raw k) (scanOrder dt.wd) = none := by
      exact Option.some.inj h
    rw [List.find?_eq_none] at hn
    have hmem : k ∈ scanOrder dt.wd := (scanOrder_mem dt.wd k h1 h2).2 ⟨hk1, hk7, hkw⟩
    simpa using hn k hmem
  · intro h
    have hn : List.find? (fun k => isOpenDay raw k) (scanOrder dt.wd) = none := by
      rw [List.find?_eq_none]
      intro x hx
      have hk := (scanOrder_mem dt.wd x h1 h2).1 hx
      simp [h x hk.1 hk.2.1 hk.2.2]
    rw [hn]

/-- C4 witness: the amended characterization at a concrete schedule with only
Wednesday open, queried from Monday. -/
theorem c4_witness :
    ((1 ≤ (1 : Nat)) ∧ ((1 : Nat) ≤ 7) ∧ (∀ k ∈ List.range' 1 7, (dictGet rawWed k).isSome)) ∧
    (get_next_working_day rawWed ⟨1, 12, 0, 0, 0⟩ =
        some (List.find? (fun k => isOpenDay rawWed k) (scanOrder 1)) ∧
      (get_next_working_day rawWed ⟨1, 12, 0, 0, 0⟩ = some none ↔
        ∀ k, 1 ≤ k → k ≤ 7 → k ≠ 1 → isOpenDay rawWed k = false)) :=
  ⟨⟨by decide, by decide, by decide⟩,
    c4_next_working_day_characterization rawWed ⟨1, 12, 0, 0, 0⟩
      (by decide) (by decide) (by decide)⟩

/-- C9 counterexample: the text "Автосалон: пн-пт 09:00-20:00 Сервис 08:00-20:00"
holds a showroom marker, a first department's block, then a second department's
block whose one-word header is directly followed by an hour token.  The stop
rule needs both the current token and the lookahead to be non-daytime, so it
never fires here, and the second block's pair (null days, 08:00-20:00) is
emitted - refuting the claim that no pair of the later block is returned. -/
theorem c9_counterexample :
    parse "Автосалон: пн-пт 09:00-20:00 Сервис 08:00-20:00" =
      some [(some ⟨some 1, some 5⟩, some ⟨chars "09:00", some (chars "20:00")⟩),
        (none, some ⟨chars "08:00", some (chars "20:00")⟩)] := by decide

/-- C9 (amended): the early stop happens only at an iteration in the outside
state where the showroom flag is set, at least one pair has been emitted, and
both the current token and the lookahead are non-daytime tokens (as with a
multi-word second-department header); at such a point the parse returns the
pairs emitted so far, whatever tokens follow.  A later block whose header never
produces two consecutive non-daytime tokens escapes the stop. -/
theorem c9_showroom_stops (st : ParserState) (token nt : Token) (rest : List Token)
    (hstate : st.state = PState.outside) (hflag : st.show_room_flag = true)
    (htok : token.type ∉ daytimeKinds) (hnt : nt.type ∉ daytimeKinds)
    (hranges : st.ranges ≠ []) :
    parseLoop st token (nt :: rest) = some st.ranges := by
  have hso : showroomStop st token (some nt) = some (st, true) := by
    rw [showroomStop, if_pos ⟨hstate, hflag, htok⟩, if_pos ⟨hnt, hranges⟩]
  have htr : transitions st token (some nt) = some (st, true) := by
    rw [transitions]
    rw [if_neg (by rintro ⟨-, hmem⟩; exact htok hmem)]
    rw [if_neg (by rintro ⟨hin, -⟩; rw [hstate] at hin; cases hin)]
    rw [if_neg (by rintro ⟨hin, -⟩; rw [hstate] at hin; cases hin)]
    exact hso
  rw [parseLoop]
  simp only [List.head?]
  rw [htr]
  rfl

/-- C9 witness: the stop at a concrete showroom state and a following block. -/
theorem c9_witness :
    (showroomState.state = PState.outside ∧ showroomState.show_room_flag = true ∧
      (Token.mk (chars "сервисный") TokenKind.word).type ∉ daytimeKinds ∧
      (Token.mk (chars "центр") TokenKind.word).type ∉ daytimeKinds ∧
      showroomState.ranges ≠ []) ∧
    parseLoop showroomState ⟨chars "сервисный", TokenKind.word⟩
      [⟨chars "центр", TokenKind.word⟩, ⟨chars "08:00", TokenKind.hour⟩] =
      some showroomState.ranges :=
  ⟨⟨rfl, rfl, by decide, by decide, by decide⟩,
    c9_showroom_stops showroomState ⟨chars "сервисный", TokenKind.word⟩
      ⟨chars "центр", TokenKind.word⟩ [⟨chars "08:00", TokenKind.hour⟩]
      rfl rfl (by decide) (by decide) (by decide)⟩

/-- C6 witness: the amended boundary behaviour at a concrete schedule. -/
theorem c6_witness :
    dictGet [(1, some ⟨chars "9", some (chars "19")⟩)] 1 =
      some (some ⟨chars "9", some (chars "19")⟩) ∧
    parseHoursStr (chars "9") = some (9, 0) ∧ parseHoursStr (chars "19") = some (19, 0) ∧
    check_working_time [(1, some ⟨chars "9", some (chars "19")⟩)] ⟨1, 9, 0, 0, 0⟩ =
      some true ∧
    check_working_time [(1, some ⟨chars "9", some (chars "19")⟩)] ⟨1, 19, 0, 0, 0⟩ =
      some false := by
  have h := c6_half_open_boundaries [(1, some ⟨chars "9", some (chars "19")⟩)] 1
    ⟨chars "9", some (chars "19")⟩ (chars "19") 9 0 19 0
    (by decide) (by decide) (by decide) (by decide) (Or.inl (by decide))
  exact ⟨by decide, by decide, by decide, h.1, h.2⟩

/-- Association-list lookup only returns stored values. -/
theorem assocLookup_mem_values {κ β : Type} [DecidableEq κ]
    (l : List (κ × β)) (k : κ) (x : β) (h : assocLookup l k = some x) :
    x ∈ l.map Prod.snd := by
  induction l with
  | nil => cases h
  | cons kv rest ih =>
    rw [assocLookup] at h
    by_cases hk : kv.1 = k
    · rw [if_pos hk] at h
      injection h with h
      simp [← h]
    · rw [if_neg hk] at h
      simp [ih h]

/-- Association-list lookup succeeds on every stored key. -/
theorem assocLookup_isSome_of_mem_keys {κ β : Type} [DecidableEq κ]
    (l : List (κ × β)) (k : κ) (h : k ∈ l.map Prod.fst) : (assocLookup l k).isSome := by
  induction l with
  | nil => cases h
  | cons kv rest ih =>
    rw [assocLookup]
    by_cases hk : kv.1 = k
    · simp [hk]
    · rw [if_neg hk]
      apply ih
      rw [List.map_cons] at h
      rcases List.mem_cons.1 h with h1 | h1
      · exact absurd h1.symm hk
      · exact h1

/-- Every value stored in WEEKDAYS is a weekday number in 1..7. -/
theorem wdLookup_range (v : List Char) (n : Nat) (h : wdLookup v = some n) :
    1 ≤ n ∧ n ≤ 7 := by
  have hm := assocLookup_mem_values WEEKDAYS v n h
  have hall : ∀ x ∈ WEEKDAYS.map Prod.snd, 1 ≤ x ∧ x ≤ 7 := by decide
  exact hall n hm

/-- Every pair stored in WEEKDAY_RANGES has both bounds in 1..7. -/
theorem wrLookup_range (v : List Char) (p : Nat × Nat) (h : wrLookup v = some p) :
    1 ≤ p.1 ∧ p.1 ≤ 7 ∧ 1 ≤ p.2 ∧ p.2 ≤ 7 := by
  have hm := assocLookup_mem_values WEEKDAY_RANGES v p h
  have hall : ∀ x ∈ WEEKDAY_RANGES.map Prod.snd, 1 ≤ x.1 ∧ x.1 ≤ 7 ∧ 1 ≤ x.2 ∧ x.2 ≤ 7 := by
    decide
  exact hall p hm

/-- A key matched by the alternation comes from the key list. -/
theorem matchKeys_mem : ∀ (keys : List (List Char)) (cs v rest : List Char),
    matchKeys keys cs = some (v, rest) → v ∈ keys := by
  intro keys
  induction keys with
  | nil => intro cs v rest h; cases h
  | cons k ks ih =>
    intro cs v rest h
    rw [matchKeys] at h
    cases hm : matchLit k cs with
    | some r =>
      rw [hm] at h
      injection h with h
      injection h with ha hb
      exact ha ▸ List.mem_cons_self _ _
    | none =>
      rw [hm] at h
      exact List.mem_cons_of_mem _ (ih cs v rest h)

/-- Every weekday token emitted by the tokenizer has a value that is a WEEKDAYS
key, so its lexicon lookup succeeds. -/
theorem tokenizeGo_wf : ∀ (fuel : Nat) (cs : List Char), ∀ t ∈ tokenizeGo fuel cs, wfTok t := by
  intro fuel
  induction fuel with
  | zero => intro cs t ht; exact absurd ht (List.not_mem_nil t)
  | succ fuel ih =>
    intro cs t ht
    cases cs with
    | nil => exact absurd ht (List.not_mem_nil t)
    | cons c cs2 =>
      rw [tokenizeGo] at ht
      cases h1 : matchHour (c :: cs2) with
      | some vr =>
        obtain ⟨v, rest⟩ := vr
        rw [h1] at ht
        rcases List.mem_cons.1 ht with rfl | hmem
        · intro hw; cases hw
        · exact ih _ t hmem
      | none =>
        rw [h1] at ht
        cases h2 : matchKeys wdKeys (c :: cs2) with
        | some vr =>
          obtain ⟨v, rest⟩ := vr
          rw [h2] at ht
          rcases List.mem_cons.1 ht with rfl | hmem
          · intro _
            exact assocLookup_isSome_of_mem_keys WEEKDAYS v (matchKeys_mem _ _ _ _ h2)
          · exact ih _ t hmem
        | none =>
          rw [h2] at ht
          cases h3 : matchKeys wrKeys (c :: cs2) with
          | some vr =>
            obtain ⟨v, rest⟩ := vr
            rw [h3] at ht
            rcases List.mem_cons.1 ht with rfl | hmem
            · intro hw; cases hw
            · exact ih _ t hmem
          | none =>
            rw [h3] at ht
            cases h4 : matchRangeMark (c :: cs2) with
            | some vr =>
              obtain ⟨v, rest⟩ := vr
              rw [h4] at ht
              rcases List.mem_cons.1 ht with rfl | hmem
              · intro hw; cases hw
              · exact ih _ t hmem
            | none =>
              rw [h4] at ht
              cases h5 : matchWord (c :: cs2) with
              | some vr =>
                obtain ⟨v, rest⟩ := vr
                rw [h5] at ht
                rcases List.mem_cons.1 ht with rfl | hmem
                · intro hw; cases hw
                · exact ih _ t hmem
              | none =>
                rw [h5] at ht
                exact ih _ t ht

/-- Tokens of a full tokenizer run are well-formed. -/
theorem tokenize_wf (cs : List Char) : ∀ t ∈ tokenize cs, wfTok t :=
  tokenizeGo_wf cs.length cs

/-- Saving the accumulated pair preserves the invariant. -/
theorem goodState_save (st : ParserState) (h : goodState st) : goodState (saveRanges st) := by
  obtain ⟨hd, hr⟩ := h
  refine ⟨trivial, ?_⟩
  intro p hp
  simp only [saveRanges] at hp
  rcases List.mem_append.1 hp with h1 | h1
  · exact hr p h1
  · rw [List.mem_singleton.1 h1]
    exact hd

/-- The invariant does not depend on the FSM state field. -/
theorem goodState_setState (st : ParserState) (s : PState) (h : goodState st) :
    goodState { st with state := s } := h

/-- The last transition preserves the invariant. -/
theorem lastTransition_good (st : ParserState) (token : Token) (st1 : ParserState) (b : Bool)
    (h : lastTransition st token = some (st1, b)) (hg : goodState st) : goodState st1 := by
  rw [lastTransition.eq_def] at h
  split_ifs at h with h1
  · injection h with h
    injection h with ha hb
    exact ha ▸ goodState_save _ hg
  · injection h with h
    injection h with ha hb
    exact ha ▸ hg

/-- The showroom stop transition preserves the invariant. -/
theorem showroomStop_good (st : ParserState) (token : Token) (ntok : Option Token)
    (st1 : ParserState) (b : Bool) (h : showroomStop st token ntok = some (st1, b))
    (hg : goodState st) : goodState st1 := by
  rw [showroomStop.eq_def] at h
  split_ifs at h with h1
  · split at h
    · cases h
    · split_ifs at h with h2
      · injection h with h
        injection h with ha hb
        exact ha ▸ hg
      · exact lastTransition_good st token st1 b h hg
  · exact lastTransition_good st token st1 b h hg

/-- The transition chain preserves the invariant. -/
theorem transitions_good (st : ParserState) (token : Token) (ntok : Option Token)
    (st1 : ParserState) (b : Bool) (h : transitions st token ntok = some (st1, b))
    (hg : goodState st) : goodState st1 := by
  rw [transitions.eq_def] at h
  split_ifs at h with h1 h2 h3
  · injection h with h
    injection h with ha hb
    exact ha ▸ hg
  · injection h with h
    injection h with ha hb
    exact ha ▸ goodState_save _ hg
  · split at h
    · cases h
    · rename_i nt
      split_ifs at h with h4
      · exact showroomStop_good st token _ st1 b h hg
      · injection h with h
        injection h with ha hb
        exact ha ▸ goodState_save _ hg
  · exact showroomStop_good st token ntok st1 b h hg

/-- The inside-state handler preserves the invariant, given well-formed current
and lookahead tokens. -/
theorem handle_datetime_good (st : ParserState) (token : Token) (ntok : Option Token)
    (st2 : ParserState) (h : handle_datetime_state st token ntok = some st2)
    (hg : goodState st) (hw : wfTok token)
    (hwn : ∀ nt, ntok = some nt → wfTok nt) : goodState st2 := by
  rw [handle_datetime_state.eq_def] at h
  split_ifs at h with h1 h2 h3 h4
  · injection h with h
    exact h ▸ ⟨hg.1, hg.2⟩
  · injection h with h
    refine h ▸ ⟨?_, hg.2⟩
    have hs : (wdLookup token.value).isSome := hw h2.1
    obtain ⟨n, hn⟩ := Option.isSome_iff_exists.1 hs
    obtain ⟨hn1, hn2⟩ := wdLookup_range token.value n hn
    exact ⟨n, n, by simp [hn], by simp [hn], hn1, hn2, hn1, hn2⟩
  · cases hwr : wrLookup token.value with
    | some p =>
      rw [hwr] at h
      injection h with h
      obtain ⟨hp1, hp2, hp3, hp4⟩ := wrLookup_range token.value p hwr
      exact h ▸ ⟨⟨p.1, p.2, rfl, rfl, hp1, hp2, hp3, hp4⟩, hg.2⟩
    | none =>
      rw [hwr] at h
      injection h with h
      exact h ▸ hg
  · split at h
    · cases h
    · rename_i nt
      split_ifs at h with h5 h6
      · injection h with h
        exact h ▸ ⟨hg.1, hg.2⟩
      · injection h with h
        refine h ▸ ⟨?_, hg.2⟩
        obtain ⟨dr, hdr⟩ := Option.isSome_iff_exists.1 h6.2
        have hs : (wdLookup nt.value).isSome := hwn nt rfl h6.1
        obtain ⟨n, hn⟩ := Option.isSome_iff_exists.1 hs
        obtain ⟨hn1, hn2⟩ := wdLookup_range nt.value n hn
        have hgd := hg.1
        rw [hdr] at hgd
        obtain ⟨s, e, hs1, hs2, hs3, hs4, _, _⟩ := hgd
        rw [hdr]
        exact ⟨s, n, by simp [hs1], by simp [hn], hs3, hs4, hn1, hn2⟩
      · injection h with h
        exact h ▸ hg
  · injection h with h
    exact h ▸ hg

/-- The state handler preserves the invariant. -/
theorem handle_good (st : ParserState) (token : Token) (ntok : Option Token)
    (st2 : ParserState) (h : handle_state st token ntok = some st2)
    (hg : goodState st) (hw : wfTok token)
    (hwn : ∀ nt, ntok = some nt → wfTok nt) : goodState st2 := by
  rw [handle_state.eq_def] at h
  cases hst : st.state with
  | inside =>
    rw [hst] at h
    exact handle_datetime_good st token ntok st2 h hg hw hwn
  | outside =>
    rw [hst] at h
    injection h with h
    rw [handle_outside_datetime_state.eq_def] at h
    split_ifs at h
    · exact h ▸ ⟨hg.1, hg.2⟩
    · exact h ▸ hg

/-- Every pair emitted by the parse loop has a well-formed days range, given a
well-formed token stream and a good starting state. -/
theorem parseLoop_good : ∀ (rest : List Token) (st : ParserState) (token : Token)
    (rs : List RangePair), goodState st → wfTok token → (∀ t ∈ rest, wfTok t) →
    parseLoop st token rest = some rs → ∀ p ∈ rs, goodDays p.1 := by
  intro rest
  induction rest with
  | nil =>
    intro st token rs hg hw hrest h
    rw [parseLoop] at h
    split at h
    · cases h
    · rename_i st1 b htr
      have hg1 := transitions_good st token _ st1 b htr hg
      split at h
      · injection h with h
        exact h ▸ hg1.2
      · split at h
        · cases h
        · rename_i st2 hh
          have hg2 := handle_good st1 token _ st2 hh hg1 hw (by intro nt hnt; cases hnt)
          injection h with h
          subst h
          intro p hp
          split at hp
          · exact (goodState_save st2 hg2).2 p hp
          · exact hg2.2 p hp
  | cons t ts ih =>
    intro st token rs hg hw hrest h
    rw [parseLoop] at h
    split at h
    · cases h
    · rename_i st1 b htr
      have hg1 := transitions_good st token _ st1 b htr hg
      split at h
      · injection h with h
        exact h ▸ hg1.2
      · split at h
        · cases h
        · rename_i st2 hh
          have hwt : wfTok t := hrest t (List.mem_cons_self _ _)
          have hg2 := handle_good st1 token _ st2 hh hg1 hw
            (by intro nt hnt; injection hnt with hnt; exact hnt ▸ hwt)
          simp only [List.head?_cons, forceState_eq] at h
          rw [if_neg (by simp)] at h
          have hrest2 : ∀ x ∈ ts, wfTok x := fun x hx => hrest x (List.mem_cons_of_mem _ hx)
          exact ih st2 t rs hg2 hwt hrest2 h

/-- C10: every pair returned by Parser.parse has a days range that is either
null or has both bounds set to weekday numbers in 1..7, so the schedule
builder's inclusive iteration is well-defined. -/
theorem c10_days_range_invariant (text : String) (rs : List RangePair)
    (h : parse text = some rs) : ∀ p ∈ rs, goodDays p.1 := by
  rw [parse] at h
  cases htk : tokenize (preprocess (chars text)) with
  | nil =>
    rw [htk] at h
    injection h with h
    intro p hp
    rw [← h] at hp
    cases hp
  | cons t ts =>
    rw [htk] at h
    have hwf := tokenize_wf (preprocess (chars text))
    rw [htk] at hwf
    exact parseLoop_good ts initState t rs
      ⟨trivial, fun p hp => absurd hp (List.not_mem_nil p)⟩
      (hwf t (List.mem_cons_self _ _))
      (fun x hx => hwf x (List.mem_cons_of_mem _ hx)) h

/-- C10 witness: the invariant on the concrete pair parsed from "пн 9.00-19.00". -/
theorem c10_witness :
    parse "пн 9.00-19.00" =
      some [(some ⟨some 1, some 1⟩, some ⟨chars "9.00", some (chars "19.00")⟩)] ∧
    ∀ p ∈ ([(some (DaysRange.mk (some 1) (some 1)),
        some (HoursRange.mk (chars "9.00") (some (chars "19.00"))))] : List RangePair),
      goodDays p.1 :=
  ⟨by decide, c10_days_range_invariant "пн 9.00-19.00" _ (by decide)⟩

end HoursSpec
